import Mathlib

set_option maxRecDepth 100000

/-!
Verification of the CIDR-allocation core of `terraform-provider-utility`.

The repository's `Create` handlers (two variants: one keyed on `from_cidrs`,
one on `parent_cidrs`) parse CIDR strings with Go's `net.ParseCIDR`, validate
them with a regular expression in the resource schema, and delegate the search
to `FindAvailableCIDR` / `ContainsCIDR` from the external
`massdriver-cloud/cola` package.  Text handling is embedded over `List Char`
(Lean `String.data`), IPv4 addresses as `Nat` below `2^32`.
-/

/-- ASCII decimal digit test (`'0'` is code 48, `'9'` is code 57).  Mirrors the
byte-range digit checks done by Go's `dtoi` and by the character classes of the
validation regex. -/
def isDigitChar (c : Char) : Bool :=
  decide (48 ≤ c.toNat) && decide (c.toNat ≤ 57)

/-- Numeric value of a decimal digit string, most significant digit first;
mirrors Go's `dtoi` accumulation `n = n*10 + int(s[i]-'0')`. -/
def digitsToNat (ds : List Char) : Nat :=
  ds.foldl (fun n c => n * 10 + (c.toNat - 48)) 0

/-- Split a character list at every occurrence of `sep`; the separators are
dropped.  `splitSep sep xs` always returns at least one (possibly empty)
chunk. -/
def splitSep (sep : Char) : List Char → List (List Char)
  | [] => [[]]
  | c :: cs =>
    if c = sep then
      [] :: splitSep sep cs
    else
      match splitSep sep cs with
      | [] => [[c]]
      | p :: ps => (c :: p) :: ps

/-- An IPv4 CIDR block: `base` is the 32-bit network address (a `Nat` below
`2^32`, host bits cleared), `prefixLength` the number of leading network
bits.  Mirrors the information content of Go's `net.IPNet` as produced by
`net.ParseCIDR`. -/
structure AddressRange where
  base : Nat
  prefixLength : Nat
deriving DecidableEq

/-- Number of addresses covered by the block: `2^(32 - prefixLength)`. -/
def AddressRange.size (r : AddressRange) : Nat :=
  2 ^ (32 - r.prefixLength)

/-- First address of the block. -/
def AddressRange.firstAddr (r : AddressRange) : Nat :=
  r.base

/-- Last address of the block. -/
def AddressRange.lastAddr (r : AddressRange) : Nat :=
  r.base + r.size - 1

/-- Clear the host bits of a 32-bit address for prefix length `p`:
`b / 2^(32-p) * 2^(32-p)`.  Mirrors `ip.Mask(mask)` applied by Go's
`net.ParseCIDR` before building the returned `*net.IPNet`. -/
def maskBase (p b : Nat) : Nat :=
  b / 2 ^ (32 - p) * 2 ^ (32 - p)

/-- One dotted-quad field as accepted by Go's `net.ParseCIDR` (Go ≥ 1.17):
one or more decimal digits, no leading zero in a multi-digit field, value at
most 255. -/
def parseOctet : List Char → Option Nat
  | [] => none
  | c :: cs =>
    if !(c :: cs).all isDigitChar then none
    else if !cs.isEmpty && c.toNat == 48 then none
    else if digitsToNat (c :: cs) > 255 then none
    else some (digitsToNat (c :: cs))

/-- The prefix-length field after `/` as accepted by Go's `net.ParseCIDR`:
one or more decimal digits (leading zeros tolerated there), value at most 32
for IPv4. -/
def parseMaskLen : List Char → Option Nat
  | [] => none
  | c :: cs =>
    if !(c :: cs).all isDigitChar then none
    else if digitsToNat (c :: cs) > 32 then none
    else some (digitsToNat (c :: cs))

/-- Core of the model of Go's `net.ParseCIDR` restricted to IPv4 text: split
at `/`, parse a dotted quad and a prefix length, then mask the address down to
its network base.  Inputs that Go would reject (wrong field counts, empty or
non-digit fields, leading-zero octets, out-of-range values) yield `none`. -/
def parseCIDRCore (cs : List Char) : Option AddressRange :=
  match splitSep '/' cs with
  | [addr, maskDs] =>
    match splitSep '.' addr with
    | [d1, d2, d3, d4] =>
      match parseOctet d1, parseOctet d2, parseOctet d3, parseOctet d4,
            parseMaskLen maskDs with
      | some a, some b, some c, some d, some p =>
        some ⟨maskBase p (((a * 256 + b) * 256 + c) * 256 + d), p⟩
      | _, _, _, _, _ => none
    | _ => none
  | _ => none

/-- Model of Go's `net.ParseCIDR` on a Lean `String`. -/
def parseCIDR (s : String) : Option AddressRange :=
  parseCIDRCore s.data

/-- Decimal rendering helper: prepend the digits of `n` to `acc`.  The first
argument is recursion fuel; any fuel above `n` yields the digits of `n` (the
division chain `n, n/10, n/10/10, …` reaches a one-digit number in fewer than
`n` steps). -/
def renderNatCore : Nat → Nat → List Char → List Char
  | 0, _, acc => acc
  | fuel + 1, n, acc =>
    if n < 10 then Char.ofNat (48 + n % 10) :: acc
    else renderNatCore fuel (n / 10) (Char.ofNat (48 + n % 10) :: acc)

/-- Canonical decimal rendering of a natural number (no leading zeros,
`renderNat 0 = ['0']`), as produced by Go's `uitoa`. -/
def renderNat (n : Nat) : List Char :=
  renderNatCore (n + 1) n []

/-- Model of Go's `(*net.IPNet).String()` for an IPv4 network: dotted quad of
the (already masked) base address, a slash, and the decimal prefix length. -/
def renderCIDR (r : AddressRange) : String :=
  ⟨renderNat (r.base / 2 ^ 24 % 256) ++ '.' ::
    (renderNat (r.base / 2 ^ 16 % 256) ++ '.' ::
      (renderNat (r.base / 2 ^ 8 % 256) ++ '.' ::
        (renderNat (r.base % 256) ++ '/' :: renderNat r.prefixLength)))⟩

/-- Error kinds of the allocation core (spec §7): `invalidMaskSize` for a
requested block larger than the parent, `usedNotContained` for a used range
outside the parent (the source comment in `Create` documents that
`FindAvailableCIDR` errors in that case; `cidr.ErrNoAvailableCIDR` is the only
error kind the `parent_cidrs` variant treats as non-fatal), and
`noAvailableCIDR` when every candidate conflicts. -/
inductive CidrError where
  | invalidMaskSize
  | usedNotContained
  | noAvailableCIDR
deriving DecidableEq

/-- Modelled from the spec: `ContainsCIDR` of the external
`massdriver-cloud/cola` package `pkg/cidr` is not in this repository's source
tree; spec §4.1 defines `contains(outer, inner)` as
`inner.firstAddress >= outer.firstAddress` and
`inner.lastAddress <= outer.lastAddress`. -/
def ContainsCIDR (outer inner : AddressRange) : Bool :=
  decide (outer.firstAddr ≤ inner.firstAddr) &&
    decide (inner.lastAddr ≤ outer.lastAddr)

/-- Modelled from the spec: the spec §4.1 overlap predicate — the address
intervals intersect, `a.firstAddress <= b.lastAddress` and
`b.firstAddress <= a.lastAddress`. -/
def overlaps (a b : AddressRange) : Bool :=
  decide (a.firstAddr ≤ b.lastAddr) && decide (b.firstAddr ≤ a.lastAddr)

/-- A candidate block is free when it overlaps no used range. -/
def isFree (c : AddressRange) (used : List AddressRange) : Bool :=
  used.all fun u => !overlaps c u

/-- Walk `n` candidate blocks of width `step` and prefix length `tlen`
starting at `b`, in ascending address order, and return the first free one
(spec §4.2 steps 3–4). -/
def searchFrom (b step tlen : Nat) (used : List AddressRange) : Nat → Option AddressRange
  | 0 => none
  | n + 1 =>
    if isFree ⟨b, tlen⟩ used then some ⟨b, tlen⟩
    else searchFrom (b + step) step tlen used n

/-- Number of candidate blocks of target prefix length `tlen` inside
`parent`: `parent.size / step` (spec §4.2 step 2). -/
def candCount (parent : AddressRange) (tlen : Nat) : Nat :=
  parent.size / 2 ^ (32 - tlen)

/-- Modelled from the spec: `FindAvailableCIDR` of the external
`massdriver-cloud/cola` package `pkg/cidr` is not in this repository's source
tree.  Spec §4.2: reject a target prefix length numerically smaller than the
parent's (`InvalidMaskSize`), then walk candidate blocks of the target size in
ascending address order and return the first one overlapping no used range,
failing with `NoAvailableCidr` after exhausting all candidates.  The
containment check on `used` reflects the source comment in the `parent_cidrs`
variant of `Create`: the function errors when a used CIDR is not contained in
the parent. -/
def FindAvailableCIDR (parent : AddressRange) (tlen : Nat)
    (used : List AddressRange) : Except CidrError AddressRange :=
  if tlen < parent.prefixLength then .error .invalidMaskSize
  else if used.any (fun u => !ContainsCIDR parent u) then .error .usedNotContained
  else
    match searchFrom parent.base (2 ^ (32 - tlen)) tlen used (candCount parent tlen) with
    | some c => .ok c
    | none => .error .noAvailableCIDR

instance {ε α : Type} [DecidableEq ε] [DecidableEq α] : DecidableEq (Except ε α) := fun x y =>
  match x, y with
  | .ok a, .ok b =>
    if h : a = b then isTrue (by rw [h]) else isFalse (by intro hh; cases hh; exact h rfl)
  | .error a, .error b =>
    if h : a = b then isTrue (by rw [h]) else isFalse (by intro hh; cases hh; exact h rfl)
  | .ok _, .error _ => isFalse (by intro h; cases h)
  | .error _, .ok _ => isFalse (by intro h; cases h)

/-- Match a full CIDR string against per-field predicates: exactly one `/`,
the part before it made of exactly four `.`-separated fields satisfying
`octP`, the part after it satisfying `maskP`.  Shared skeleton of the
validation-regex model and its numeric characterizations. -/
def cidrFieldsMatch (octP maskP : List Char → Bool) (s : String) : Bool :=
  match splitSep '/' s.data with
  | [addr, maskDs] =>
    match splitSep '.' addr with
    | [d1, d2, d3, d4] => octP d1 && octP d2 && octP d3 && octP d4 && maskP maskDs
    | _ => false
  | _ => false

/-- One octet field of the schema validation regex,
`[0-9]|[0-9]{2}|1[0-9][0-9]|2[0-4][0-9]|25[0-5]`: one digit, any two digits,
or three digits spelling 100–255 (char 49 is `'1'`, 50 is `'2'`, 52 is `'4'`,
53 is `'5'`). -/
def octetRegexOk : List Char → Bool
  | [a] => isDigitChar a
  | [a, b] => isDigitChar a && isDigitChar b
  | [a, b, c] =>
    (a.toNat == 49 && isDigitChar b && isDigitChar c) ||
      (a.toNat == 50 && decide (48 ≤ b.toNat) && decide (b.toNat ≤ 52) && isDigitChar c) ||
      (a.toNat == 50 && b.toNat == 53 && decide (48 ≤ c.toNat) && decide (c.toNat ≤ 53))
  | _ => false

/-- The prefix-length field of the schema validation regex,
`[1-9]|[1-2][0-9]|3[0-2]`: a single digit 1–9, or two digits spelling 10–32
(char 49 is `'1'`, 50 is `'2'`, 51 is `'3'`). -/
def maskLenRegexOk : List Char → Bool
  | [a] => decide (49 ≤ a.toNat) && decide (a.toNat ≤ 57)
  | [a, b] =>
    (decide (49 ≤ a.toNat) && decide (a.toNat ≤ 50) && isDigitChar b) ||
      (a.toNat == 51 && decide (48 ≤ b.toNat) && decide (b.toNat ≤ 50))
  | _ => false

/-- The CIDR validation regular expression used (identically) by the
`from_cidrs`, `used_cidrs` and `parent_cidrs` schema validators and by
`ImportState`:
`^(?:[0-9]|[0-9]{2}|1[0-9][0-9]|2[0-4][0-9]|25[0-5])(?:\.(?:…)){3}(?:\/(?:[1-9]|[1-2][0-9]|3[0-2]))$`.
Since octet and prefix fields contain no `.` or `/`, the regex language is
exactly: four `.`-separated octet fields, `/`, one prefix field. -/
def cidrRegexMatch (s : String) : Bool :=
  cidrFieldsMatch octetRegexOk maskLenRegexOk s

/-- Outcome of one `Create` call: the diagnostics added to the response, the
state writes performed (`resp.State.Set` renders `result.String()` into both
`id` and `result`; one entry per `Set` call), and, for analysis of the
orchestration, the `FindAvailableCIDR` invocations as (parent, used-list
passed) pairs in call order. -/
structure CreateOut where
  diags : List String
  writes : List String
  calls : List (AddressRange × List AddressRange)
deriving DecidableEq

/-- The `used_cidrs` parsing loop shared by both `Create` variants: parse each
string with `net.ParseCIDR`, aborting with the `"Error parsing used_cidrs"`
diagnostic on the first failure. -/
def parseUsedList : List String → Except String (List AddressRange)
  | [] => .ok []
  | s :: rest =>
    match parseCIDR s with
    | none => .error "Error parsing used_cidrs"
    | some r =>
      match parseUsedList rest with
      | .error d => .error d
      | .ok rs => .ok (r :: rs)

/-- The parent loop of the `from_cidrs` variant of `Create`
(`available_cidr_resource.go`, first variant, lines 158–182): parse each
`from` string (aborting on failure), call `FindAvailableCIDR` with the FULL
used list (no containment filter in this variant), break out of the loop as
soon as `result != nil`, and after the loop report `"No available CIDR
found"` when the last call left a non-nil error.  `err` models the `findErr`
variable carried across iterations.  When the list is exhausted with
`findErr == nil` (only possible for an empty `from_cidrs`, which the schema's
`SizeAtLeast(1)` forbids) the Go code dereferences a nil `result`; that
unreachable branch is modelled as no diagnostic and no write. -/
def createFromLoop (mask : Nat) (used : List AddressRange)
    (acc : List (AddressRange × List AddressRange)) (err : Option CidrError) :
    List String → CreateOut
  | [] =>
    match err with
    | some _ => ⟨["No available CIDR found"], [], acc⟩
    | none => ⟨[], [], acc⟩
  | f :: rest =>
    match parseCIDR f with
    | none => ⟨["Error parsing from_cidrs"], [], acc⟩
    | some parent =>
      match FindAvailableCIDR parent mask used with
      | .ok r => ⟨[], [renderCIDR r], acc ++ [(parent, used)]⟩
      | .error e => createFromLoop mask used (acc ++ [(parent, used)]) (some e) rest

/-- The `Create` handler of the `from_cidrs` variant.  `planOk` models
`req.Plan.Get` succeeding, `fromOk`/`usedOk` the two `ElementsAs`
conversions; each failure adds a framework diagnostic and returns before any
state write. -/
def createFrom (planOk fromOk usedOk : Bool) (fromCidrs usedCidrs : List String)
    (mask : Nat) : CreateOut :=
  if !planOk then ⟨["error reading Terraform plan"], [], []⟩
  else if !fromOk then ⟨["error converting from_cidrs elements"], [], []⟩
  else if !usedOk then ⟨["error converting used_cidrs elements"], [], []⟩
  else
    match parseUsedList usedCidrs with
    | .error d => ⟨[d], [], []⟩
    | .ok usedR => createFromLoop mask usedR [] none fromCidrs

/-- The parent loop of the `parent_cidrs` variant of `Create`
(`available_cidr_resource.go`, second variant, lines 401–431): parse each
parent (aborting on failure), filter the used list down to the ranges
contained in that parent, call `FindAvailableCIDR` on the filtered list, abort
with `"Error while finding available CIDR"` on any error other than
`cidr.ErrNoAvailableCIDR`, and keep looping — this variant has NO break on
success, so `result`/`findErr` (modelled by `res`/`err`) are overwritten on
every iteration and the last parent's outcome decides the epilogue.  As in
`createFromLoop`, the nil-result epilogue (empty `parent_cidrs`, forbidden by
the schema) is modelled as no diagnostic and no write. -/
def createParentLoop (mask : Nat) (used : List AddressRange)
    (acc : List (AddressRange × List AddressRange)) (res : Option AddressRange)
    (err : Option CidrError) : List String → CreateOut
  | [] =>
    match err with
    | some _ => ⟨["No available CIDR found"], [], acc⟩
    | none =>
      match res with
      | some r => ⟨[], [renderCIDR r], acc⟩
      | none => ⟨[], [], acc⟩
  | p :: rest =>
    match parseCIDR p with
    | none => ⟨["Error parsing parent_cidrs"], [], acc⟩
    | some parent =>
      match FindAvailableCIDR parent mask (used.filter fun u => ContainsCIDR parent u) with
      | .ok r =>
        createParentLoop mask used
          (acc ++ [(parent, used.filter fun u => ContainsCIDR parent u)]) (some r) none rest
      | .error .noAvailableCIDR =>
        createParentLoop mask used
          (acc ++ [(parent, used.filter fun u => ContainsCIDR parent u)]) none
          (some .noAvailableCIDR) rest
      | .error _ =>
        ⟨["Error while finding available CIDR"], [],
          acc ++ [(parent, used.filter fun u => ContainsCIDR parent u)]⟩

/-- The `Create` handler of the `parent_cidrs` variant, with the same
plan/element failure injection points as `createFrom`. -/
def createParent (planOk parentOk usedOk : Bool) (parentCidrs usedCidrs : List String)
    (mask : Nat) : CreateOut :=
  if !planOk then ⟨["error reading Terraform plan"], [], []⟩
  else if !parentOk then ⟨["error converting parent_cidrs elements"], [], []⟩
  else if !usedOk then ⟨["error converting used_cidrs elements"], [], []⟩
  else
    match parseUsedList usedCidrs with
    | .error d => ⟨[d], [], []⟩
    | .ok usedR => createParentLoop mask usedR [] none none parentCidrs

/-- Numeric characterization of `octetRegexOk` (for the amended claim C7): a
nonempty digit string of at most three characters whose value is at most 255,
where a three-character field must have value at least 100 (which also rules
out three-digit leading zeros). -/
def octetNumOk (ds : List Char) : Bool :=
  !ds.isEmpty && ds.all isDigitChar && decide (ds.length ≤ 3) &&
    decide (digitsToNat ds ≤ 255) &&
    (decide (ds.length ≤ 2) || decide (100 ≤ digitsToNat ds))

/-- Numeric characterization of `maskLenRegexOk` (for the amended claim C7): a
nonempty digit string of at most two characters with value between 1 and 32,
where a two-character field must have value at least 10 (no leading zero). -/
def maskLenNumOk (ds : List Char) : Bool :=
  !ds.isEmpty && ds.all isDigitChar && decide (ds.length ≤ 2) &&
    decide (1 ≤ digitsToNat ds) && decide (digitsToNat ds ≤ 32) &&
    (decide (ds.length ≤ 1) || decide (10 ≤ digitsToNat ds))

/-- The amended validation language: same dotted-quad-with-prefix skeleton,
fields characterized numerically by `octetNumOk` and `maskLenNumOk`. -/
def cidrAmendedMatch (s : String) : Bool :=
  cidrFieldsMatch octetNumOk maskLenNumOk s

/-- The claimed validation shape, following claim C7's words: dotted quad with
prefix where each octet is a (nonempty) digit field with value 0–255 and the
prefix is a digit field with value 0–32. -/
def octetSpecOk (ds : List Char) : Bool :=
  !ds.isEmpty && ds.all isDigitChar && decide (digitsToNat ds ≤ 255)

/-- The prefix field of the claimed validation shape: digits, value 0–32. -/
def maskLenSpecOk (ds : List Char) : Bool :=
  !ds.isEmpty && ds.all isDigitChar && decide (digitsToNat ds ≤ 32)

/-- Claim C7's shape predicate over whole CIDR strings. -/
def cidrClaimShape (s : String) : Bool :=
  cidrFieldsMatch octetSpecOk maskLenSpecOk s

/-- The 256 used ranges `10.1.0.0/24 … 10.1.255.0/24` tiling the parent
`10.1.0.0/16` (base `167837696`) completely at `/24` granularity, for claim
C5. -/
def tiles24 : List AddressRange :=
  (List.range 256).map fun i => ⟨167837696 + i * 256, 24⟩


/-! ## Search lemmas -/

theorem isDigitChar_iff (c : Char) :
    isDigitChar c = true ↔ 48 ≤ c.toNat ∧ c.toNat ≤ 57 := by
  simp [isDigitChar]

theorem isFree_iff (c : AddressRange) (used : List AddressRange) :
    isFree c used = true ↔ ∀ u ∈ used, overlaps c u = false := by
  simp [isFree, List.all_eq_true]

theorem isFree_eq_false_of_overlap {c u : AddressRange} {used : List AddressRange}
    (hu : u ∈ used) (hov : overlaps c u = true) : isFree c used = false := by
  cases h : isFree c used with
  | false => rfl
  | true =>
    have := (isFree_iff c used).mp h u hu
    rw [hov] at this
    cases this

theorem overlaps_self (a : AddressRange) : overlaps a a = true := by
  have h : 1 ≤ a.size := Nat.one_le_two_pow
  simp only [overlaps, AddressRange.firstAddr, AddressRange.lastAddr,
    Bool.and_eq_true, decide_eq_true_eq]
  omega

theorem searchFrom_some_spec (step tlen : Nat) (used : List AddressRange) :
    ∀ n b c, searchFrom b step tlen used n = some c →
      ∃ k, k < n ∧ c = ⟨b + k * step, tlen⟩ ∧ isFree c used = true ∧
        ∀ j, j < k → isFree ⟨b + j * step, tlen⟩ used = false := by
  intro n
  induction n with
  | zero => intro b c h; simp [searchFrom] at h
  | succ m ih =>
    intro b c h
    rw [searchFrom] at h
    split at h
    next hf =>
      refine ⟨0, by omega, ?_, ?_, by omega⟩
      · cases h; simp
      · cases h; exact hf
    next hf =>
      obtain ⟨k, hk, hc, hfree, hbefore⟩ := ih (b + step) c h
      refine ⟨k + 1, by omega, ?_, hfree, ?_⟩
      · rw [hc]
        have : b + step + k * step = b + (k + 1) * step := by ring
        rw [this]
      · intro j hj
        cases j with
        | zero =>
          simp only [Nat.zero_mul, Nat.add_zero]
          exact Bool.eq_false_iff.mpr hf
        | succ j' =>
          have : b + (j' + 1) * step = b + step + j' * step := by ring
          rw [this]
          exact hbefore j' (by omega)

theorem searchFrom_none_iff (step tlen : Nat) (used : List AddressRange) :
    ∀ n b, searchFrom b step tlen used n = none ↔
      ∀ k, k < n → isFree ⟨b + k * step, tlen⟩ used = false := by
  intro n
  induction n with
  | zero => intro b; simp [searchFrom]
  | succ m ih =>
    intro b
    rw [searchFrom]
    constructor
    · intro h k hk
      split at h
      next => cases h
      next hf =>
        cases k with
        | zero => simpa using Bool.eq_false_iff.mpr hf
        | succ k' =>
          have : b + (k' + 1) * step = b + step + k' * step := by ring
          rw [this]
          exact (ih (b + step)).mp h k' (by omega)
    · intro h
      have h0 : isFree ⟨b, tlen⟩ used = false := by simpa using h 0 (by omega)
      rw [if_neg (by simp [h0])]
      refine (ih (b + step)).mpr fun k hk => ?_
      have : b + step + k * step = b + (k + 1) * step := by ring
      rw [this]
      exact h (k + 1) (by omega)

/-! ## Claim C6 -/

/-- C6: for every parent, target prefix length, and used list where the
target prefix length is numerically smaller than the parent's prefix length
(requested block larger than the parent), `FindAvailableCIDR` fails with
`InvalidMaskSize` rather than returning a block. -/
theorem C6_invalid_mask_size (parent : AddressRange) (tlen : Nat)
    (used : List AddressRange) (h : tlen < parent.prefixLength) :
    FindAvailableCIDR parent tlen used = .error .invalidMaskSize := by
  unfold FindAvailableCIDR
  rw [if_pos h]

theorem C6_invalid_mask_size_witness :
    16 < (⟨167772160, 24⟩ : AddressRange).prefixLength ∧
      FindAvailableCIDR ⟨167772160, 24⟩ 16 [] = .error .invalidMaskSize :=
  ⟨by decide, C6_invalid_mask_size ⟨167772160, 24⟩ 16 [] (by decide)⟩

/-! ## Claim C3 -/

/-- C3: whenever `FindAvailableCIDR` succeeds (for a target prefix length in
range), the returned block has size `2^(32 - targetPrefixLength)`, is fully
contained in the parent, and overlaps no entry of the used list. -/
theorem C3_allocation_postcondition (parent : AddressRange) (tlen : Nat)
    (used : List AddressRange) (c : AddressRange) (h32 : tlen ≤ 32)
    (hok : FindAvailableCIDR parent tlen used = .ok c) :
    c.size = 2 ^ (32 - tlen) ∧ ContainsCIDR parent c = true ∧
      ∀ u ∈ used, overlaps c u = false := by
  unfold FindAvailableCIDR at hok
  split at hok
  next => cases hok
  next hmask =>
    split at hok
    next => cases hok
    next hcontain =>
      split at hok
      next x hsearch =>
        obtain ⟨k, hk, hc, hfree, -⟩ :=
          searchFrom_some_spec (2 ^ (32 - tlen)) tlen used (candCount parent tlen)
            parent.base x hsearch
        cases hok
        subst hc
        have htot : k * 2 ^ (32 - tlen) + 2 ^ (32 - tlen) ≤
            2 ^ (32 - parent.prefixLength) := by
          have he : k * 2 ^ (32 - tlen) + 2 ^ (32 - tlen) =
              (k + 1) * 2 ^ (32 - tlen) := by ring
          rw [he]
          have hks : (k + 1) * 2 ^ (32 - tlen) ≤
              candCount parent tlen * 2 ^ (32 - tlen) :=
            Nat.mul_le_mul_right _ (by omega)
          have hcs : candCount parent tlen * 2 ^ (32 - tlen) ≤
              2 ^ (32 - parent.prefixLength) := Nat.div_mul_le_self _ _
          exact hks.trans hcs
        refine ⟨rfl, ?_, (isFree_iff _ _).mp hfree⟩
        simp only [ContainsCIDR, AddressRange.firstAddr, AddressRange.lastAddr,
          AddressRange.size, Bool.and_eq_true, decide_eq_true_eq]
        refine ⟨Nat.le_add_right _ _, ?_⟩
        calc parent.base + k * 2 ^ (32 - tlen) + 2 ^ (32 - tlen) - 1
            = parent.base + (k * 2 ^ (32 - tlen) + 2 ^ (32 - tlen)) - 1 := by
              rw [Nat.add_assoc]
          _ ≤ parent.base + 2 ^ (32 - parent.prefixLength) - 1 :=
              Nat.sub_le_sub_right (Nat.add_le_add_left htot _) 1
      next => cases hok

theorem C3_allocation_postcondition_witness :
    (24 ≤ 32 ∧ FindAvailableCIDR ⟨167772160, 24⟩ 26 [⟨167772160, 26⟩] = .ok ⟨167772224, 26⟩) ∧
      ((⟨167772224, 26⟩ : AddressRange).size = 2 ^ (32 - 26) ∧
        ContainsCIDR ⟨167772160, 24⟩ ⟨167772224, 26⟩ = true ∧
        ∀ u ∈ [(⟨167772160, 26⟩ : AddressRange)], overlaps ⟨167772224, 26⟩ u = false) :=
  ⟨⟨by decide, by decide⟩,
    C3_allocation_postcondition ⟨167772160, 24⟩ 26 [⟨167772160, 26⟩] ⟨167772224, 26⟩
      (by decide) (by decide)⟩

/-! ## Claim C4 -/

/-- C4: the allocator is first-fit in ascending address order — the returned
block's base is the lowest among all free candidates — and on the two spec
examples (run through the `Create` handler of the `from_cidrs` variant, as in
the acceptance test and the published example) the results are exactly
`10.1.1.0/24` and `10.0.17.0/24`. -/
theorem C4_first_fit :
    (createFrom true true true ["10.1.0.0/16"] ["10.1.0.0/24"] 24).writes =
        ["10.1.1.0/24"] ∧
    (createFrom true true true ["10.0.0.0/16"] ["10.0.0.0/20", "10.0.16.0/24"] 24).writes =
        ["10.0.17.0/24"] ∧
    ∀ (parent : AddressRange) (tlen : Nat) (used : List AddressRange) (c : AddressRange),
      FindAvailableCIDR parent tlen used = .ok c →
      ∀ k, k < candCount parent tlen →
        isFree ⟨parent.base + k * 2 ^ (32 - tlen), tlen⟩ used = true →
        c.base ≤ parent.base + k * 2 ^ (32 - tlen) := by
  refine ⟨by decide, by decide, ?_⟩
  intro parent tlen used c hok k hk hkfree
  unfold FindAvailableCIDR at hok
  split at hok
  next => cases hok
  next =>
    split at hok
    next => cases hok
    next =>
      split at hok
      next x hsearch =>
        obtain ⟨k0, hk0, hc, hfree, hbefore⟩ :=
          searchFrom_some_spec (2 ^ (32 - tlen)) tlen used (candCount parent tlen)
            parent.base x hsearch
        cases hok
        by_cases hlt : k < k0
        · rw [hbefore k hlt] at hkfree
          cases hkfree
        · subst hc
          show parent.base + k0 * 2 ^ (32 - tlen) ≤ parent.base + k * 2 ^ (32 - tlen)
          exact Nat.add_le_add_left (Nat.mul_le_mul_right _ (by omega)) _
      next => cases hok

theorem C4_first_fit_witness :
    (167837952 : Nat) ≤ 167837696 + 1 * 2 ^ (32 - 24) :=
  C4_first_fit.2.2 ⟨167837696, 16⟩ 24 [⟨167837696, 24⟩] ⟨167837952, 24⟩
    (by decide) 1 (by decide) (by decide)

/-! ## Claim C5 -/

/-- C5: the per-parent search fails with `NoAvailableCidr` exactly when every
candidate block of the requested size conflicts with some used range (given
the mask and containment guards pass) — i.e. only after exhausting all
candidates, never early — and concretely the parent `10.1.0.0/16` tiled
completely by `/24` used ranges fails a `/24` request with
`NoAvailableCidr`. -/
theorem C5_saturated_exhaustive :
    (∀ (parent : AddressRange) (tlen : Nat) (used : List AddressRange),
      FindAvailableCIDR parent tlen used = .error .noAvailableCIDR ↔
        parent.prefixLength ≤ tlen ∧ (∀ u ∈ used, ContainsCIDR parent u = true) ∧
          ∀ k, k < candCount parent tlen →
            isFree ⟨parent.base + k * 2 ^ (32 - tlen), tlen⟩ used = false) ∧
    FindAvailableCIDR ⟨167837696, 16⟩ 24 tiles24 = .error .noAvailableCIDR := by
  have main : ∀ (parent : AddressRange) (tlen : Nat) (used : List AddressRange),
      FindAvailableCIDR parent tlen used = .error .noAvailableCIDR ↔
        parent.prefixLength ≤ tlen ∧ (∀ u ∈ used, ContainsCIDR parent u = true) ∧
          ∀ k, k < candCount parent tlen →
            isFree ⟨parent.base + k * 2 ^ (32 - tlen), tlen⟩ used = false := by
    intro parent tlen used
    constructor
    · intro h
      unfold FindAvailableCIDR at h
      split at h
      next => simp at h
      next hmask =>
        split at h
        next => simp at h
        next hcontain =>
          split at h
          next => simp at h
          next hsearch =>
            refine ⟨by omega, ?_, (searchFrom_none_iff _ _ _ _ _).mp hsearch⟩
            intro u hu
            cases hcu : ContainsCIDR parent u with
            | true => rfl
            | false =>
              exact absurd (List.any_eq_true.mpr ⟨u, hu, by simp [hcu]⟩) hcontain
    · rintro ⟨hple, hcont, hblock⟩
      unfold FindAvailableCIDR
      rw [if_neg (by omega)]
      have hany : (used.any fun u => !ContainsCIDR parent u) = false := by
        cases hh : used.any fun u => !ContainsCIDR parent u with
        | false => rfl
        | true =>
          obtain ⟨u, hu, hnc⟩ := List.any_eq_true.mp hh
          rw [hcont u hu] at hnc
          cases hnc
      rw [if_neg (by simp [hany])]
      rw [(searchFrom_none_iff _ _ _ _ _).mpr hblock]
  refine ⟨main, (main ⟨167837696, 16⟩ 24 tiles24).mpr ⟨by decide, by decide, ?_⟩⟩
  intro k hk
  have hk' : k < 256 := by
    have : candCount ⟨167837696, 16⟩ 24 = 256 := by decide
    omega
  have h256 : (2 : Nat) ^ (32 - 24) = 256 := by norm_num
  rw [h256]
  have hmem : (⟨167837696 + k * 256, 24⟩ : AddressRange) ∈ tiles24 :=
    List.mem_map.mpr ⟨k, List.mem_range.mpr hk', rfl⟩
  exact isFree_eq_false_of_overlap hmem (overlaps_self _)

theorem C5_saturated_exhaustive_witness :
    FindAvailableCIDR ⟨0, 30⟩ 31 [⟨0, 31⟩, ⟨2, 31⟩] = .error .noAvailableCIDR :=
  (C5_saturated_exhaustive.1 ⟨0, 30⟩ 31 [⟨0, 31⟩, ⟨2, 31⟩]).mpr
    ⟨by decide, by decide, by decide⟩

/-! ## Claim C1 -/

/-- C1 (code bug): with parents `["10.0.0.0/16", "10.1.0.0/16"]` and the used
range `10.1.0.0/16` saturating only the second parent, the first parent is
empty and does have an available `/24` block (first conjunct), yet BOTH
`Create` variants report `"No available CIDR found"` and write no state: the
`parent_cidrs` variant because its parent loop has no break, so the last
parent's `ErrNoAvailableCIDR` survives into the epilogue and clobbers the
first parent's successful result; the `from_cidrs` variant because it passes
the unfiltered used list, so the first parent's scan errors
(`usedNotContained`) instead of succeeding.  The claim (and spec §8) requires
the result `10.0.0.0/24` from the first parent. -/
theorem C1_first_parent_loses :
    FindAvailableCIDR ⟨167772160, 16⟩ 24 [] = .ok ⟨167772160, 24⟩ ∧
    (createParent true true true ["10.0.0.0/16", "10.1.0.0/16"] ["10.1.0.0/16"] 24).diags =
        ["No available CIDR found"] ∧
    (createParent true true true ["10.0.0.0/16", "10.1.0.0/16"] ["10.1.0.0/16"] 24).writes =
        [] ∧
    (createFrom true true true ["10.0.0.0/16", "10.1.0.0/16"] ["10.1.0.0/16"] 24).diags =
        ["No available CIDR found"] ∧
    (createFrom true true true ["10.0.0.0/16", "10.1.0.0/16"] ["10.1.0.0/16"] 24).writes =
        [] := by
  refine ⟨by decide, by decide, by decide, by decide, by decide⟩

/-! ## Claim C9 -/

theorem createFromLoop_atomic (mask : Nat) (used : List AddressRange) :
    ∀ (froms : List String) (acc : List (AddressRange × List AddressRange))
      (err : Option CidrError),
      (createFromLoop mask used acc err froms).writes = [] ∨
        ((createFromLoop mask used acc err froms).diags = [] ∧
          ∃ r, (createFromLoop mask used acc err froms).writes = [renderCIDR r]) := by
  intro froms
  induction froms with
  | nil =>
    intro acc err
    cases err with
    | none => exact Or.inl rfl
    | some e => exact Or.inl rfl
  | cons f rest ih =>
    intro acc err
    rw [createFromLoop]
    split
    · exact Or.inl rfl
    · split
      · exact Or.inr ⟨rfl, _, rfl⟩
      · exact ih _ _

theorem createParentLoop_atomic (mask : Nat) (used : List AddressRange) :
    ∀ (parents : List String) (acc : List (AddressRange × List AddressRange))
      (res : Option AddressRange) (err : Option CidrError),
      (createParentLoop mask used acc res err parents).writes = [] ∨
        ((createParentLoop mask used acc res err parents).diags = [] ∧
          ∃ r, (createParentLoop mask used acc res err parents).writes = [renderCIDR r]) := by
  intro parents
  induction parents with
  | nil =>
    intro acc res err
    cases err with
    | some e => exact Or.inl rfl
    | none =>
      cases res with
      | some r => exact Or.inr ⟨rfl, r, rfl⟩
      | none => exact Or.inl rfl
  | cons p rest ih =>
    intro acc res err
    rw [createParentLoop]
    split
    · exact Or.inl rfl
    · split
      · exact ih _ _ _
      · exact ih _ _ _
      · exact Or.inl rfl

/-- C9: `Create` is atomic with respect to errors, in both variants: either
no state is written at all (every error path returns before `resp.State.Set`),
or no diagnostic was added and exactly one state write happened, carrying the
rendered result that was found. -/
theorem C9_create_atomic (planOk elemsOk1 elemsOk2 : Bool)
    (parents used : List String) (mask : Nat) :
    ((createFrom planOk elemsOk1 elemsOk2 parents used mask).writes = [] ∨
      ((createFrom planOk elemsOk1 elemsOk2 parents used mask).diags = [] ∧
        ∃ r, (createFrom planOk elemsOk1 elemsOk2 parents used mask).writes =
          [renderCIDR r])) ∧
    ((createParent planOk elemsOk1 elemsOk2 parents used mask).writes = [] ∨
      ((createParent planOk elemsOk1 elemsOk2 parents used mask).diags = [] ∧
        ∃ r, (createParent planOk elemsOk1 elemsOk2 parents used mask).writes =
          [renderCIDR r])) := by
  constructor
  · unfold createFrom
    cases planOk with
    | false => exact Or.inl rfl
    | true =>
      cases elemsOk1 with
      | false => exact Or.inl rfl
      | true =>
        cases elemsOk2 with
        | false => exact Or.inl rfl
        | true =>
          cases hu : parseUsedList used with
          | error d => exact Or.inl rfl
          | ok usedR => exact createFromLoop_atomic mask usedR parents [] none
  · unfold createParent
    cases planOk with
    | false => exact Or.inl rfl
    | true =>
      cases elemsOk1 with
      | false => exact Or.inl rfl
      | true =>
        cases elemsOk2 with
        | false => exact Or.inl rfl
        | true =>
          cases hu : parseUsedList used with
          | error d => exact Or.inl rfl
          | ok usedR => exact createParentLoop_atomic mask usedR parents [] none none

/-! ## Claim C2 -/

/-- C2 (counterexample): in the `from_cidrs` variant of `Create`, the single
allocator invocation receives the parsed used range `10.1.0.0/24` even though
it is not contained in the scanned parent `10.0.0.0/16` — no containment
filter exists on that path, refuting the claim that every per-parent
allocator invocation sees only contained used ranges. -/
theorem C2_unfiltered_counterexample :
    (createFrom true true true ["10.0.0.0/16"] ["10.1.0.0/24"] 24).calls =
        [(⟨167772160, 16⟩, [⟨167837696, 24⟩])] ∧
      ContainsCIDR ⟨167772160, 16⟩ ⟨167837696, 24⟩ = false := by
  refine ⟨by decide, by decide⟩

theorem createParentLoop_calls_contained (mask : Nat) (used : List AddressRange) :
    ∀ (parents : List String) (acc : List (AddressRange × List AddressRange))
      (res : Option AddressRange) (err : Option CidrError),
      (∀ pu ∈ acc, ∀ u ∈ pu.2, ContainsCIDR pu.1 u = true) →
      ∀ pu ∈ (createParentLoop mask used acc res err parents).calls,
        ∀ u ∈ pu.2, ContainsCIDR pu.1 u = true := by
  intro parents
  induction parents with
  | nil =>
    intro acc res err hacc
    cases err with
    | some e => exact hacc
    | none =>
      cases res with
      | some r => exact hacc
      | none => exact hacc
  | cons p rest ih =>
    intro acc res err hacc
    rw [createParentLoop]
    have hacc' : ∀ (parent : AddressRange),
        ∀ pu ∈ acc ++ [(parent, used.filter fun u => ContainsCIDR parent u)],
          ∀ u ∈ pu.2, ContainsCIDR pu.1 u = true := by
      intro parent pu hpu u hu
      rcases List.mem_append.mp hpu with hin | hnew
      · exact hacc pu hin u hu
      · rcases List.mem_singleton.mp hnew with rfl
        exact (List.mem_filter.mp hu).2
    split
    · exact hacc
    next parent _ =>
      split
      · exact ih _ _ _ (hacc' parent)
      · exact ih _ _ _ (hacc' parent)
      · exact hacc' parent

/-- C2 (amended): in the `parent_cidrs` variant of `Create` the used list is
filtered by containment before every allocator invocation, so every used
range passed to `FindAvailableCIDR` for a parent is contained in that parent;
the `from_cidrs` variant performs no such filtering (see the
counterexample). -/
theorem C2_parent_variant_filters (planOk elemsOk1 elemsOk2 : Bool)
    (parents used : List String) (mask : Nat) (p : AddressRange)
    (us : List AddressRange) (u : AddressRange)
    (hm : (p, us) ∈ (createParent planOk elemsOk1 elemsOk2 parents used mask).calls)
    (hu : u ∈ us) : ContainsCIDR p u = true := by
  unfold createParent at hm
  cases planOk with
  | false => cases hm
  | true =>
    cases elemsOk1 with
    | false => cases hm
    | true =>
      cases elemsOk2 with
      | false => cases hm
      | true =>
        cases hl : parseUsedList used with
        | error d => rw [hl] at hm; cases hm
        | ok usedR =>
          rw [hl] at hm
          exact createParentLoop_calls_contained mask usedR parents [] none none
            (by intro pu hpu; cases hpu) (p, us) hm u hu

theorem C2_parent_variant_filters_witness :
    ContainsCIDR ⟨167772160, 16⟩ ⟨167772416, 24⟩ = true :=
  C2_parent_variant_filters true true true ["10.0.0.0/16"] ["10.0.1.0/24"] 24
    ⟨167772160, 16⟩ [⟨167772416, 24⟩] ⟨167772416, 24⟩ (by decide) (by decide)

/-! ## Claim C10 -/

/-- C10: the validation regex accepts `"01.2.3.4/16"` (a two-digit octet with
a leading zero), yet the model of `net.ParseCIDR` rejects it, and `Create`
run on that (schema-valid) used string fails with the
`"Error parsing used_cidrs"` diagnostic and writes no state. -/
theorem C10_validated_parse_failure :
    cidrRegexMatch "01.2.3.4/16" = true ∧
      parseCIDR "01.2.3.4/16" = none ∧
      (createFrom true true true ["10.0.0.0/16"] ["01.2.3.4/16"] 24).diags =
        ["Error parsing used_cidrs"] ∧
      (createFrom true true true ["10.0.0.0/16"] ["01.2.3.4/16"] 24).writes = [] := by
  refine ⟨by decide, by decide, by decide, by decide⟩

/-! ## Claim C7 -/

theorem octetRegexOk_eq_octetNumOk (ds : List Char) :
    octetRegexOk ds = octetNumOk ds := by
  rcases ds with _ | ⟨a, _ | ⟨b, _ | ⟨c, _ | ⟨d, tl⟩⟩⟩⟩
  · rfl
  · rw [Bool.eq_iff_iff]
    simp only [octetRegexOk, octetNumOk, isDigitChar, digitsToNat, List.foldl,
      List.isEmpty_cons, List.all_cons, List.all_nil, List.length_cons,
      List.length_nil, Bool.not_false, Bool.true_and, Bool.and_true,
      Bool.and_eq_true, Bool.or_eq_true, decide_eq_true_eq]
    omega
  · rw [Bool.eq_iff_iff]
    simp only [octetRegexOk, octetNumOk, isDigitChar, digitsToNat, List.foldl,
      List.isEmpty_cons, List.all_cons, List.all_nil, List.length_cons,
      List.length_nil, Bool.not_false, Bool.true_and, Bool.and_true,
      Bool.and_eq_true, Bool.or_eq_true, decide_eq_true_eq]
    omega
  · rw [Bool.eq_iff_iff]
    simp only [octetRegexOk, octetNumOk, isDigitChar, digitsToNat, List.foldl,
      List.isEmpty_cons, List.all_cons, List.all_nil, List.length_cons,
      List.length_nil, Bool.not_false, Bool.true_and, Bool.and_true,
      Bool.and_eq_true, Bool.or_eq_true, decide_eq_true_eq, beq_iff_eq]
    omega
  · have hL : octetRegexOk (a :: b :: c :: d :: tl) = false := rfl
    rw [hL]
    symm
    rw [Bool.eq_false_iff]
    intro h
    simp only [octetNumOk, List.isEmpty_cons, List.length_cons, Bool.not_false,
      Bool.true_and, Bool.and_eq_true, Bool.or_eq_true, decide_eq_true_eq] at h
    omega

theorem maskLenRegexOk_eq_maskLenNumOk (ds : List Char) :
    maskLenRegexOk ds = maskLenNumOk ds := by
  rcases ds with _ | ⟨a, _ | ⟨b, _ | ⟨c, tl⟩⟩⟩
  · rfl
  · rw [Bool.eq_iff_iff]
    simp only [maskLenRegexOk, maskLenNumOk, isDigitChar, digitsToNat, List.foldl,
      List.isEmpty_cons, List.all_cons, List.all_nil, List.length_cons,
      List.length_nil, Bool.not_false, Bool.true_and, Bool.and_true,
      Bool.and_eq_true, Bool.or_eq_true, decide_eq_true_eq]
    omega
  · rw [Bool.eq_iff_iff]
    simp only [maskLenRegexOk, maskLenNumOk, isDigitChar, digitsToNat, List.foldl,
      List.isEmpty_cons, List.all_cons, List.all_nil, List.length_cons,
      List.length_nil, Bool.not_false, Bool.true_and, Bool.and_true,
      Bool.and_eq_true, Bool.or_eq_true, decide_eq_true_eq, beq_iff_eq]
    omega
  · have hL : maskLenRegexOk (a :: b :: c :: tl) = false := rfl
    rw [hL]
    symm
    rw [Bool.eq_false_iff]
    intro h
    simp only [maskLenNumOk, List.isEmpty_cons, List.length_cons, Bool.not_false,
      Bool.true_and, Bool.and_eq_true, Bool.or_eq_true, decide_eq_true_eq] at h
    omega

/-- C7 (counterexample): `"0.0.0.0/0"` has the claimed dotted-quad-with-prefix
shape (octets 0–255, prefix 0–32) but the validation regex rejects it — its
prefix alternation `[1-9]|[1-2][0-9]|3[0-2]` has no case for `0`. -/
theorem C7_prefix_zero_counterexample :
    cidrClaimShape "0.0.0.0/0" = true ∧ cidrRegexMatch "0.0.0.0/0" = false :=
  ⟨by decide, by decide⟩

/-- C7 (amended): the validation regex accepts exactly the
dotted-quad-with-prefix strings whose octets are one or two digits (any
value 0–99, leading zero allowed) or three digits with value 100–255, and
whose prefix length is written without a leading zero and has value 1–32;
in particular prefix length 0 is rejected. -/
theorem C7_regex_language (s : String) : cidrRegexMatch s = cidrAmendedMatch s := by
  unfold cidrRegexMatch cidrAmendedMatch cidrFieldsMatch
  split
  · split
    · rw [octetRegexOk_eq_octetNumOk, octetRegexOk_eq_octetNumOk,
        octetRegexOk_eq_octetNumOk, octetRegexOk_eq_octetNumOk,
        maskLenRegexOk_eq_maskLenNumOk]
    · rfl
  · rfl

/-! ## Claim C8: decimal rendering lemmas -/

theorem toNat_ofNat_digit (d : Nat) (h : d < 10) :
    (Char.ofNat (48 + d)).toNat = 48 + d := by
  interval_cases d <;> decide

theorem renderNatCore_acc (n : Nat) : ∀ (f : Nat) (acc : List Char), n < f →
    renderNatCore f n acc = renderNatCore f n [] ++ acc := by
  induction n using Nat.strong_induction_on with
  | _ n ih =>
    intro f acc hf
    cases f with
    | zero => omega
    | succ f =>
      rw [renderNatCore, renderNatCore]
      by_cases h : n < 10
      · rw [if_pos h, if_pos h]; rfl
      · rw [if_neg h, if_neg h]
        have hlt : n / 10 < f := by omega
        rw [ih (n / 10) (by omega) f (Char.ofNat (48 + n % 10) :: acc) hlt,
          ih (n / 10) (by omega) f [Char.ofNat (48 + n % 10)] hlt]
        simp

theorem renderNatCore_fuel (n : Nat) : ∀ (f g : Nat) (acc : List Char),
    n < f → n < g → renderNatCore f n acc = renderNatCore g n acc := by
  induction n using Nat.strong_induction_on with
  | _ n ih =>
    intro f g acc hf hg
    cases f with
    | zero => omega
    | succ f =>
      cases g with
      | zero => omega
      | succ g =>
        rw [renderNatCore, renderNatCore]
        by_cases h : n < 10
        · rw [if_pos h, if_pos h]
        · rw [if_neg h, if_neg h]
          exact ih (n / 10) (by omega) f g _ (by omega) (by omega)

theorem renderNat_lt {n : Nat} (h : n < 10) :
    renderNat n = [Char.ofNat (48 + n)] := by
  unfold renderNat
  rw [renderNatCore, if_pos h, Nat.mod_eq_of_lt h]

theorem renderNat_ge {n : Nat} (h : 10 ≤ n) :
    renderNat n = renderNat (n / 10) ++ [Char.ofNat (48 + n % 10)] := by
  unfold renderNat
  rw [renderNatCore, if_neg (by omega)]
  rw [renderNatCore_fuel (n / 10) n (n / 10 + 1) _ (by omega) (by omega)]
  rw [renderNatCore_acc (n / 10) (n / 10 + 1) _ (by omega)]

theorem renderNat_ne_nil (n : Nat) : renderNat n ≠ [] := by
  by_cases h : n < 10
  · rw [renderNat_lt h]; simp
  · rw [renderNat_ge (by omega)]; simp

theorem renderNat_digits (n : Nat) :
    ∀ c ∈ renderNat n, 48 ≤ c.toNat ∧ c.toNat ≤ 57 := by
  induction n using Nat.strong_induction_on with
  | _ n ih =>
    by_cases h : n < 10
    · rw [renderNat_lt h]
      intro c hc
      rcases List.mem_singleton.mp hc with rfl
      rw [toNat_ofNat_digit n h]
      omega
    · rw [renderNat_ge (by omega)]
      intro c hc
      rcases List.mem_append.mp hc with h1 | h2
      · exact ih (n / 10) (by omega) c h1
      · rcases List.mem_singleton.mp h2 with rfl
        rw [toNat_ofNat_digit _ (Nat.mod_lt _ (by omega))]
        have := Nat.mod_lt n (show 0 < 10 by omega)
        omega

theorem digitsToNat_append_single (xs : List Char) (c : Char) :
    digitsToNat (xs ++ [c]) = digitsToNat xs * 10 + (c.toNat - 48) := by
  unfold digitsToNat
  rw [List.foldl_append]
  rfl

theorem digitsToNat_renderNat (n : Nat) : digitsToNat (renderNat n) = n := by
  induction n using Nat.strong_induction_on with
  | _ n ih =>
    by_cases h : n < 10
    · rw [renderNat_lt h]
      simp [digitsToNat, toNat_ofNat_digit n h]
    · rw [renderNat_ge (by omega), digitsToNat_append_single,
        ih (n / 10) (by omega), toNat_ofNat_digit _ (Nat.mod_lt _ (by omega))]
      omega

theorem renderNat_head_ge (n : Nat) :
    1 ≤ n → ∀ c cs, renderNat n = c :: cs → 49 ≤ c.toNat := by
  induction n using Nat.strong_induction_on with
  | _ n ih =>
    intro hn c cs heq
    by_cases h : n < 10
    · rw [renderNat_lt h] at heq
      injection heq with h1 h2
      rw [← h1, toNat_ofNat_digit n h]
      omega
    · rw [renderNat_ge (by omega)] at heq
      obtain ⟨c', cs', hsh⟩ := List.exists_cons_of_ne_nil (renderNat_ne_nil (n / 10))
      rw [hsh, List.cons_append] at heq
      injection heq with h1 h2
      rw [← h1]
      exact ih (n / 10) (by omega) (by omega) c' cs' hsh

theorem renderNat_all_digits (n : Nat) : (renderNat n).all isDigitChar = true := by
  rw [List.all_eq_true]
  intro x hx
  rw [isDigitChar_iff]
  exact renderNat_digits n x hx

theorem parseOctet_renderNat (m : Nat) (hm : m ≤ 255) :
    parseOctet (renderNat m) = some m := by
  obtain ⟨c, cs, hsh⟩ := List.exists_cons_of_ne_nil (renderNat_ne_nil m)
  have hall : (c :: cs).all isDigitChar = true := by
    rw [← hsh]; exact renderNat_all_digits m
  have hval : digitsToNat (c :: cs) = m := by
    rw [← hsh, digitsToNat_renderNat]
  have hlead : (!cs.isEmpty && c.toNat == 48) = false := by
    cases cs with
    | nil => simp
    | cons c2 cs2 =>
      have h10 : 10 ≤ m := by
        by_contra hlt
        rw [renderNat_lt (by omega)] at hsh
        simp at hsh
      have h49 := renderNat_head_ge m (by omega) c (c2 :: cs2) hsh
      have hne : c.toNat ≠ 48 := by omega
      simp [List.isEmpty, hne]
  rw [hsh, parseOctet, if_neg (by simp [hall]), if_neg (by simp [hlead]), hval,
    if_neg (by omega)]

theorem parseMaskLen_renderNat (p : Nat) (hp : p ≤ 32) :
    parseMaskLen (renderNat p) = some p := by
  obtain ⟨c, cs, hsh⟩ := List.exists_cons_of_ne_nil (renderNat_ne_nil p)
  have hall : (c :: cs).all isDigitChar = true := by
    rw [← hsh]; exact renderNat_all_digits p
  have hval : digitsToNat (c :: cs) = p := by
    rw [← hsh, digitsToNat_renderNat]
  rw [hsh, parseMaskLen, if_neg (by simp [hall]), hval, if_neg (by omega)]

/-! ## Claim C8: splitter lemmas -/

theorem splitSep_of_not_mem (sep : Char) :
    ∀ xs : List Char, (∀ c ∈ xs, c ≠ sep) → splitSep sep xs = [xs] := by
  intro xs
  induction xs with
  | nil => intro h; rfl
  | cons c cs ih =>
    intro h
    rw [splitSep, if_neg (h c (List.mem_cons_self c cs)),
      ih fun x hx => h x (List.mem_cons_of_mem c hx)]

theorem splitSep_append_sep (sep : Char) :
    ∀ xs ys : List Char, (∀ c ∈ xs, c ≠ sep) →
      splitSep sep (xs ++ sep :: ys) = xs :: splitSep sep ys := by
  intro xs
  induction xs with
  | nil =>
    intro ys h
    show splitSep sep (sep :: ys) = [] :: splitSep sep ys
    rw [splitSep, if_pos rfl]
  | cons c cs ih =>
    intro ys h
    rw [List.cons_append, splitSep, if_neg (h c (List.mem_cons_self c cs)),
      ih ys fun x hx => h x (List.mem_cons_of_mem c hx)]

/-! ## Claim C8: parse soundness and round trip -/

theorem parseOctet_le {ds : List Char} {a : Nat} (h : parseOctet ds = some a) :
    a ≤ 255 := by
  rcases ds with _ | ⟨c, cs⟩
  · cases h
  · rw [parseOctet] at h
    split at h
    next => cases h
    next =>
      split at h
      next => cases h
      next =>
        split at h
        next => cases h
        next hv => cases h; omega

theorem parseMaskLen_le {ds : List Char} {p : Nat} (h : parseMaskLen ds = some p) :
    p ≤ 32 := by
  rcases ds with _ | ⟨c, cs⟩
  · cases h
  · rw [parseMaskLen] at h
    split at h
    next => cases h
    next =>
      split at h
      next => cases h
      next hv => cases h; omega

theorem maskBase_le (p b : Nat) : maskBase p b ≤ b := by
  unfold maskBase
  exact Nat.div_mul_le_self b _

theorem maskBase_idem (p b : Nat) : maskBase p (maskBase p b) = maskBase p b := by
  unfold maskBase
  rw [Nat.mul_div_cancel _ (Nat.pow_pos (by omega))]

theorem parseCIDR_sound (s : String) (r : AddressRange) (h : parseCIDR s = some r) :
    r.base < 2 ^ 32 ∧ r.prefixLength ≤ 32 ∧ maskBase r.prefixLength r.base = r.base := by
  unfold parseCIDR parseCIDRCore at h
  split at h
  next addr maskDs _ =>
    split at h
    next d1 d2 d3 d4 _ =>
      split at h
      next a b c d p ha hb hc hd hp =>
        cases h
        have la := parseOctet_le ha
        have lb := parseOctet_le hb
        have lc := parseOctet_le hc
        have ld := parseOctet_le hd
        have lp := parseMaskLen_le hp
        refine ⟨?_, lp, maskBase_idem _ _⟩
        have hbig : ((a * 256 + b) * 256 + c) * 256 + d < 2 ^ 32 := by
          have e32 : (2 : Nat) ^ 32 = 4294967296 := by norm_num
          omega
        exact Nat.lt_of_le_of_lt (maskBase_le _ _) hbig
      next => cases h
    next => cases h
  next => cases h

theorem parseCIDR_renderCIDR (r : AddressRange) (h1 : r.base < 2 ^ 32)
    (h2 : r.prefixLength ≤ 32) (h3 : maskBase r.prefixLength r.base = r.base) :
    parseCIDR (renderCIDR r) = some r := by
  have hmod : ∀ x : Nat, x % 256 ≤ 255 := fun x => by omega
  have hdig : ∀ (n : Nat), ∀ c ∈ renderNat n, c ≠ '.' ∧ c ≠ '/' := by
    intro n c hc
    have hb := renderNat_digits n c hc
    constructor
    · intro heq; rw [heq] at hb; revert hb; decide
    · intro heq; rw [heq] at hb; revert hb; decide
  have haddr : ∀ c ∈ renderNat (r.base / 2 ^ 24 % 256) ++ '.' ::
      (renderNat (r.base / 2 ^ 16 % 256) ++ '.' ::
        (renderNat (r.base / 2 ^ 8 % 256) ++ '.' :: renderNat (r.base % 256))),
      c ≠ '/' := by
    intro c hc
    simp only [List.mem_append, List.mem_cons] at hc
    rcases hc with h | h | h | h | h | h | h
    · exact (hdig _ c h).2
    · subst h; decide
    · exact (hdig _ c h).2
    · subst h; decide
    · exact (hdig _ c h).2
    · subst h; decide
    · exact (hdig _ c h).2
  have hs1 : splitSep '/' ((renderNat (r.base / 2 ^ 24 % 256) ++ '.' ::
        (renderNat (r.base / 2 ^ 16 % 256) ++ '.' ::
          (renderNat (r.base / 2 ^ 8 % 256) ++ '.' :: renderNat (r.base % 256)))) ++
        '/' :: renderNat r.prefixLength) =
      [renderNat (r.base / 2 ^ 24 % 256) ++ '.' ::
        (renderNat (r.base / 2 ^ 16 % 256) ++ '.' ::
          (renderNat (r.base / 2 ^ 8 % 256) ++ '.' :: renderNat (r.base % 256))),
        renderNat r.prefixLength] := by
    rw [splitSep_append_sep '/' _ _ haddr,
      splitSep_of_not_mem '/' _ fun c hc => (hdig _ c hc).2]
  have hdots : splitSep '.' (renderNat (r.base / 2 ^ 24 % 256) ++ '.' ::
      (renderNat (r.base / 2 ^ 16 % 256) ++ '.' ::
        (renderNat (r.base / 2 ^ 8 % 256) ++ '.' :: renderNat (r.base % 256)))) =
      [renderNat (r.base / 2 ^ 24 % 256), renderNat (r.base / 2 ^ 16 % 256),
        renderNat (r.base / 2 ^ 8 % 256), renderNat (r.base % 256)] := by
    rw [splitSep_append_sep '.' _ _ fun c hc => (hdig _ c hc).1,
      splitSep_append_sep '.' _ _ fun c hc => (hdig _ c hc).1,
      splitSep_append_sep '.' _ _ fun c hc => (hdig _ c hc).1,
      splitSep_of_not_mem '.' _ fun c hc => (hdig _ c hc).1]
  have hshape : (renderCIDR r).data =
      (renderNat (r.base / 2 ^ 24 % 256) ++ '.' ::
        (renderNat (r.base / 2 ^ 16 % 256) ++ '.' ::
          (renderNat (r.base / 2 ^ 8 % 256) ++ '.' :: renderNat (r.base % 256)))) ++
        '/' :: renderNat r.prefixLength := by
    show renderNat (r.base / 2 ^ 24 % 256) ++ '.' ::
        (renderNat (r.base / 2 ^ 16 % 256) ++ '.' ::
          (renderNat (r.base / 2 ^ 8 % 256) ++ '.' ::
            (renderNat (r.base % 256) ++ '/' :: renderNat r.prefixLength))) = _
    simp [List.append_assoc]
  have hoc1 := parseOctet_renderNat (r.base / 2 ^ 24 % 256) (hmod _)
  have hoc2 := parseOctet_renderNat (r.base / 2 ^ 16 % 256) (hmod _)
  have hoc3 := parseOctet_renderNat (r.base / 2 ^ 8 % 256) (hmod _)
  have hoc4 := parseOctet_renderNat (r.base % 256) (hmod _)
  have hmk := parseMaskLen_renderNat r.prefixLength h2
  have hre : ((r.base / 2 ^ 24 % 256 * 256 + r.base / 2 ^ 16 % 256) * 256 +
      r.base / 2 ^ 8 % 256) * 256 + r.base % 256 = r.base := by
    have e32 : (2 : Nat) ^ 32 = 4294967296 := by norm_num
    have e24 : (2 : Nat) ^ 24 = 16777216 := by norm_num
    have e16 : (2 : Nat) ^ 16 = 65536 := by norm_num
    have e8 : (2 : Nat) ^ 8 = 256 := by norm_num
    rw [e24, e16, e8]
    rw [e32] at h1
    omega
  simp only [parseCIDR, parseCIDRCore, hshape, hs1, hdots, hoc1, hoc2, hoc3, hoc4, hmk]
  rw [hre, h3]

/-- C8: parsing canonicalizes by masking host bits — every parse result is a
fixed point of `maskBase` — and render-then-parse recovers exactly the parsed
`AddressRange`: for every valid CIDR text the canonicalization is
idempotent. -/
theorem C8_parse_render_roundtrip (s : String) (r : AddressRange)
    (h : parseCIDR s = some r) :
    maskBase r.prefixLength r.base = r.base ∧ parseCIDR (renderCIDR r) = some r := by
  obtain ⟨hb, hp, hm⟩ := parseCIDR_sound s r h
  exact ⟨hm, parseCIDR_renderCIDR r hb hp hm⟩

theorem C8_parse_render_roundtrip_witness :
    parseCIDR "10.0.0.5/24" = some ⟨167772160, 24⟩ ∧
      (maskBase 24 167772160 = 167772160 ∧
        parseCIDR (renderCIDR ⟨167772160, 24⟩) = some ⟨167772160, 24⟩) :=
  ⟨by decide, C8_parse_render_roundtrip "10.0.0.5/24" ⟨167772160, 24⟩ (by decide)⟩
